import Mathlib

/-!
Verification of homeassistant-satellite against its specification.

This file is a shallow embedding of the parts of the repository that the
claims C1..C10 are about:

- `state.py`: the `MicState` enumeration and its `next` successor.
- `mic_process.py` `_vad_pipe`: the VAD gate (activation counter, chunk ring
  buffer, trigger and flush).
- `remote.py` `_get_pipeline_id` and `_audio_to_events`: pipeline-name
  resolution and the audio/event multiplexer loop.
- `snd.py` `duck`: output-stream ducking with remembered pre-duck volumes.
- `__main__.py` `_playback_proc`: the playback coordinator queue loop.
- `util.py` `multiply_volume`: the 16-bit volume-scaling stage.

Python floats are modelled as rationals, Python ints as `Int`/`Nat`, bytes
payloads of audio chunks as opaque identifiers (`Nat`) since none of the
claims inspects the bytes of a chunk, and 16-bit samples as `Int` values.
-/

namespace HASat

/-! ## `state.py` -/

/-- Embedding of `state.py`: the `MicState` enumeration exactly as the file
declares it.  Note that the source file declares only these three members;
`WAIT_FOR_WAKE_WORD` does not exist in `state.py` even though
`mic_process.py` refers to it (see claim C5). -/
inductive MicState
  | NOT_RECORDING
  | WAIT_FOR_VAD
  | RECORDING
deriving DecidableEq, Repr, Fintype

/-- Numeric value of each member, as assigned by `enum.auto()` in the order
of declaration (1, 2, 3). -/
def MicState.value : MicState → Nat
  | .NOT_RECORDING => 1
  | .WAIT_FOR_VAD => 2
  | .RECORDING => 3

/-- Python `MicState(n)`: the member with the given value, or `none` where the
Python constructor would raise `ValueError`. -/
def MicState.ofValue (n : Nat) : Option MicState :=
  if n = 1 then some .NOT_RECORDING
  else if n = 2 then some .WAIT_FOR_VAD
  else if n = 3 then some .RECORDING
  else none

/-- Embedding of `MicState.next` from `state.py`:
`return MicState(self.value + 1)`. -/
def MicState.next (s : MicState) : Option MicState :=
  MicState.ofValue (s.value + 1)

/-! ## `mic_process.py` `_vad_pipe`

`mic_process.py` is written against a mic-state space that also contains
`WAIT_FOR_WAKE_WORD` (it assigns `MicState.WAIT_FOR_WAKE_WORD` on VAD trigger
and compares against it in the wake-word stage), a member that `state.py`
does not define.  We embed `_vad_pipe` over that four-value space so that the
stage's algorithm can be stated; the discrepancy itself is the subject of
claim C5. -/

/-- The four-value mic-state space that `mic_process.py` uses
(`WAIT_FOR_WAKE_WORD` is referenced at its lines 180, 227, 234 and 351). -/
inductive PMicState
  | NOT_RECORDING
  | WAIT_FOR_VAD
  | WAIT_FOR_WAKE_WORD
  | RECORDING
deriving DecidableEq, Repr

/-- The parameters of `_vad_pipe`: `vad_threshold` (a Python float, modelled
as a rational), `vad_trigger_level` (a Python int) and `vad_buffer_chunks`
(the `maxlen` of the chunk deque). -/
structure VadCfg where
  vad_threshold : ℚ
  vad_trigger_level : ℤ
  vad_buffer_chunks : ℕ
deriving DecidableEq, Repr

/-- The state visible to `_vad_pipe`: the shared `state.mic` and
`state.vad_prob`, plus the stage-local `vad_activation` counter and
`vad_chunk_buffer` deque.  Chunks are identified by `ℕ` ids; the deque is the
list of buffered ids, oldest first. -/
structure VadState where
  mic : PMicState
  vad_activation : ℤ
  vad_chunk_buffer : List ℕ
  vad_prob : ℚ
deriving DecidableEq, Repr

/-- The last `n` elements of a list: the semantics of appending to a
`collections.deque` with `maxlen = n` (oldest evicted once full). -/
def takeLast (n : ℕ) (l : List α) : List α :=
  (l.reverse.take n).reverse

/-- The fresh stage state of `_vad_pipe`: `vad_activation = 0`, empty deque;
`state.mic` is `WAIT_FOR_VAD` (set by startup) and `state.vad_prob` starts
at 0 (default of the `State` dataclass). -/
def vadFresh : VadState :=
  { mic := .WAIT_FOR_VAD, vad_activation := 0, vad_chunk_buffer := [], vad_prob := 0 }

/-- One loop iteration of `_vad_pipe` on chunk `c`: returns the chunks yielded
during this iteration and the updated state.  Mirrors the source order:
pass through unless `WAIT_FOR_VAD`; append to the deque; count the activation
from `state.vad_prob`; reset `state.vad_prob` to 0; on `vad_activation >=
vad_trigger_level` set `mic = WAIT_FOR_WAKE_WORD`, yield the buffered chunks
and reset counter and buffer. -/
def vadStep (cfg : VadCfg) (s : VadState) (c : ℕ) : List ℕ × VadState :=
  if s.mic ≠ PMicState.WAIT_FOR_VAD then
    ([c], s)
  else
    let buf := takeLast cfg.vad_buffer_chunks (s.vad_chunk_buffer ++ [c])
    let act := if cfg.vad_threshold ≤ s.vad_prob then s.vad_activation + 1
               else max 0 (s.vad_activation - 1)
    if cfg.vad_trigger_level ≤ act then
      (buf, { mic := .WAIT_FOR_WAKE_WORD, vad_activation := 0,
              vad_chunk_buffer := [], vad_prob := 0 })
    else
      ([], { mic := .WAIT_FOR_VAD, vad_activation := act,
             vad_chunk_buffer := buf, vad_prob := 0 })

/-- Runs `_vad_pipe` over a list of chunks.  Each input pair `(c, p)` is a
chunk id together with the `vad_prob` that the upstream scoring stage
(`_webrtc_pipe` / `_silero_pipe`) stored in the shared state for that chunk;
storing it (`{ s with vad_prob := p }`) models that upstream write, which
`_vad_pipe` then reads.  Returns all chunks yielded, in order, and the final
state. -/
def vadRun (cfg : VadCfg) (s : VadState) : List (ℕ × ℚ) → List ℕ × VadState
  | [] => ([], s)
  | (c, p) :: rest =>
    let r := vadStep cfg { s with vad_prob := p } c
    let r2 := vadRun cfg r.2 rest
    (r.1 ++ r2.1, r2.2)

/-! ### Helper lemmas about the ring buffer and the pipe -/

lemma takeLast_sublist (n : ℕ) (l : List α) : List.Sublist (takeLast n l) l := by
  have h : List.Sublist (l.reverse.take n).reverse l.reverse.reverse :=
    (List.take_sublist n l.reverse).reverse
  simpa [takeLast] using h

/-- Appending to a full ring and then appending more is the same as appending
everything to the original list: the deque only ever keeps the last `n`. -/
lemma takeLast_takeLast_append (n : ℕ) (l m : List α) :
    takeLast n (takeLast n l ++ m) = takeLast n (l ++ m) := by
  simp [takeLast, List.reverse_append, List.take_append_eq_append_take, List.take_take,
    Nat.min_eq_left (Nat.sub_le n m.length)]

/-- A ring that was already truncated to capacity is unchanged by another
truncation. -/
lemma takeLast_idem (n : ℕ) (l : List α) :
    takeLast n (takeLast n l) = takeLast n l := by
  have h := takeLast_takeLast_append n l ([] : List α)
  simpa using h

lemma vadRun_append (cfg : VadCfg) (xs ys : List (ℕ × ℚ)) :
    ∀ s : VadState,
      vadRun cfg s (xs ++ ys) =
        ((vadRun cfg s xs).1 ++ (vadRun cfg (vadRun cfg s xs).2 ys).1,
         (vadRun cfg (vadRun cfg s xs).2 ys).2) := by
  induction xs with
  | nil => intro s; simp [vadRun]
  | cons cp rest ih =>
    obtain ⟨c, p⟩ := cp
    intro s
    simp [vadRun, ih, List.append_assoc]

/-- While `mic != WAIT_FOR_VAD` the stage is a pure pass-through. -/
lemma vadRun_passthrough (cfg : VadCfg) (inputs : List (ℕ × ℚ)) :
    ∀ s : VadState, s.mic ≠ .WAIT_FOR_VAD →
      (vadRun cfg s inputs).1 = inputs.map Prod.fst
      ∧ (vadRun cfg s inputs).2.mic = s.mic := by
  induction inputs with
  | nil => intro s _; simp [vadRun]
  | cons cp rest ih =>
    obtain ⟨c, p⟩ := cp
    intro s h
    have hstep : vadStep cfg { s with vad_prob := p } c = ([c], { s with vad_prob := p }) := by
      simp [vadStep, h]
    have hrec := ih { s with vad_prob := p } h
    simp [vadRun, hstep, hrec.1, hrec.2]

/-- Feeding `n` above-threshold chunks while waiting, with room below the
trigger level, increments the counter by exactly `n`, emits nothing and keeps
waiting. -/
lemma vadRun_replicate_above (cfg : VadCfg) (c0 : ℕ) (p : ℚ)
    (hp : cfg.vad_threshold ≤ p) :
    ∀ (n : ℕ) (s : VadState), s.mic = .WAIT_FOR_VAD →
      0 ≤ s.vad_activation →
      s.vad_activation + n < cfg.vad_trigger_level →
      (vadRun cfg s (List.replicate n (c0, p))).1 = []
      ∧ (vadRun cfg s (List.replicate n (c0, p))).2.mic = .WAIT_FOR_VAD
      ∧ (vadRun cfg s (List.replicate n (c0, p))).2.vad_activation
          = s.vad_activation + n := by
  intro n
  induction n with
  | zero => intro s h _ _; simp [vadRun, h]
  | succ n ih =>
    intro s h h0 hlt
    have hnotrig : ¬ (cfg.vad_trigger_level ≤ s.vad_activation + 1) := by
      push_cast at hlt; omega
    have hstep : vadStep cfg { s with vad_prob := p } c0 =
        ([], ⟨.WAIT_FOR_VAD, s.vad_activation + 1,
              takeLast cfg.vad_buffer_chunks (s.vad_chunk_buffer ++ [c0]), 0⟩) := by
      simp [vadStep, h, hp, hnotrig]
    have hrec := ih ⟨.WAIT_FOR_VAD, s.vad_activation + 1,
        takeLast cfg.vad_buffer_chunks (s.vad_chunk_buffer ++ [c0]), 0⟩ rfl
        (by show (0:ℤ) ≤ s.vad_activation + 1; omega)
        (by show s.vad_activation + 1 + (n:ℤ) < cfg.vad_trigger_level
            push_cast at hlt; omega)
    refine ⟨?_, ?_, ?_⟩ <;>
      simp [List.replicate_succ, vadRun, hstep, hrec.1, hrec.2.1, hrec.2.2] <;>
      push_cast <;> omega

/-- Feeding only below-threshold chunks while waiting never opens the gate:
nothing is emitted, the ring holds the last `vad_buffer_chunks` chunks seen,
and the counter never increases. -/
lemma vadRun_below (cfg : VadCfg) (inputs : List (ℕ × ℚ)) :
    ∀ s : VadState, s.mic = .WAIT_FOR_VAD →
      takeLast cfg.vad_buffer_chunks s.vad_chunk_buffer = s.vad_chunk_buffer →
      0 ≤ s.vad_activation →
      s.vad_activation < cfg.vad_trigger_level →
      (∀ pr ∈ inputs, pr.2 < cfg.vad_threshold) →
      (vadRun cfg s inputs).1 = []
      ∧ (vadRun cfg s inputs).2.mic = .WAIT_FOR_VAD
      ∧ (vadRun cfg s inputs).2.vad_chunk_buffer
          = takeLast cfg.vad_buffer_chunks (s.vad_chunk_buffer ++ inputs.map Prod.fst)
      ∧ 0 ≤ (vadRun cfg s inputs).2.vad_activation
      ∧ (vadRun cfg s inputs).2.vad_activation ≤ s.vad_activation := by
  induction inputs with
  | nil => intro s h hcap h0 _ _; simp [vadRun, h, h0, hcap]
  | cons cp rest ih =>
    obtain ⟨c, p⟩ := cp
    intro s h hcap h0 hlt hbelow
    have hpb : p < cfg.vad_threshold := hbelow (c, p) (List.mem_cons_self _ _)
    have hnle : ¬ (cfg.vad_threshold ≤ p) := not_le.mpr hpb
    have hdec : max 0 (s.vad_activation - 1) ≤ s.vad_activation :=
      max_le h0 (by omega)
    have hnotrig : ¬ (cfg.vad_trigger_level ≤ max 0 (s.vad_activation - 1)) := by
      intro hc; exact absurd (le_trans hc hdec) (not_le.mpr hlt)
    have hstep : vadStep cfg { s with vad_prob := p } c =
        ([], ⟨.WAIT_FOR_VAD, max 0 (s.vad_activation - 1),
              takeLast cfg.vad_buffer_chunks (s.vad_chunk_buffer ++ [c]), 0⟩) := by
      simp [vadStep, h, hnle, hnotrig]
    have hrec := ih ⟨.WAIT_FOR_VAD, max 0 (s.vad_activation - 1),
        takeLast cfg.vad_buffer_chunks (s.vad_chunk_buffer ++ [c]), 0⟩ rfl
        (takeLast_idem _ _)
        (le_max_left _ _) (lt_of_le_of_lt hdec hlt)
        (fun pr hpr => hbelow pr (List.mem_cons_of_mem _ hpr))
    refine ⟨?_, ?_, ?_, ?_, ?_⟩
    · simp [vadRun, hstep, hrec.1]
    · simp [vadRun, hstep, hrec.2.1]
    · simp only [vadRun, hstep, hrec.2.2.1]
      rw [takeLast_takeLast_append]
      simp [List.append_assoc]
    · simp [vadRun, hstep, hrec.2.2.2.1]
    · simp only [vadRun, hstep]
      exact le_trans hrec.2.2.2.2 hdec

/-- Every chunk the stage emits is one of the buffered or incoming chunks, in
order, and each is emitted at most as often as it came in. -/
lemma vadRun_sublist (cfg : VadCfg) (inputs : List (ℕ × ℚ)) :
    ∀ s : VadState,
      List.Sublist (vadRun cfg s inputs).1 (s.vad_chunk_buffer ++ inputs.map Prod.fst) := by
  induction inputs with
  | nil => intro s; simp [vadRun]
  | cons cp rest ih =>
    obtain ⟨c, p⟩ := cp
    intro s
    by_cases h : s.mic = PMicState.WAIT_FOR_VAD
    · by_cases htr : cfg.vad_trigger_level ≤
        (if cfg.vad_threshold ≤ p then s.vad_activation + 1 else max 0 (s.vad_activation - 1))
      · -- trigger: flush the ring, then pure pass-through
        have hstep : vadStep cfg { s with vad_prob := p } c =
            (takeLast cfg.vad_buffer_chunks (s.vad_chunk_buffer ++ [c]),
             ⟨.WAIT_FOR_WAKE_WORD, 0, [], 0⟩) := by
          simp [vadStep, h, htr]
        have hpass := (vadRun_passthrough cfg rest
          ⟨.WAIT_FOR_WAKE_WORD, 0, [], 0⟩ (by simp)).1
        have h1 : List.Sublist (takeLast cfg.vad_buffer_chunks (s.vad_chunk_buffer ++ [c]))
            (s.vad_chunk_buffer ++ [c]) := takeLast_sublist _ _
        have h2 := List.Sublist.append h1 (List.Sublist.refl (rest.map Prod.fst))
        simpa [vadRun, hstep, hpass, List.append_assoc] using h2
      · -- no trigger: nothing emitted now; the new ring is inside the old data
        have hstep : vadStep cfg { s with vad_prob := p } c =
            ([], ⟨.WAIT_FOR_VAD,
                  if cfg.vad_threshold ≤ p then s.vad_activation + 1
                    else max 0 (s.vad_activation - 1),
                  takeLast cfg.vad_buffer_chunks (s.vad_chunk_buffer ++ [c]), 0⟩) := by
          simp only [vadStep, h]
          simp [htr]
        have hrec := ih ⟨.WAIT_FOR_VAD,
            if cfg.vad_threshold ≤ p then s.vad_activation + 1
              else max 0 (s.vad_activation - 1),
            takeLast cfg.vad_buffer_chunks (s.vad_chunk_buffer ++ [c]), 0⟩
        have h1 : List.Sublist
            (takeLast cfg.vad_buffer_chunks (s.vad_chunk_buffer ++ [c]) ++ rest.map Prod.fst)
            ((s.vad_chunk_buffer ++ [c]) ++ rest.map Prod.fst) :=
          List.Sublist.append (takeLast_sublist _ _) (List.Sublist.refl _)
        have h2 := List.Sublist.trans (by simpa using hrec) h1
        simpa [vadRun, hstep, List.append_assoc] using h2
    · -- pass-through
      have hstep : vadStep cfg { s with vad_prob := p } c = ([c], { s with vad_prob := p }) := by
        simp [vadStep, h]
      have hpass := (vadRun_passthrough cfg rest { s with vad_prob := p } h).1
      have h1 : List.Sublist (c :: rest.map Prod.fst)
          (s.vad_chunk_buffer ++ c :: rest.map Prod.fst) := by
        simpa using List.Sublist.append (List.nil_sublist s.vad_chunk_buffer)
          (List.Sublist.refl (c :: rest.map Prod.fst))
      simpa [vadRun, hstep, hpass] using h1

/-! ### Claims C1, C2, C10 -/

/-- Claim C1: while `mic == WAIT_FOR_VAD`, each chunk increments the
activation counter by 1 when `vad_prob >= vad_threshold` and otherwise
decrements it with a floor at 0 (so `trigger_level - 1` above-threshold chunks
followed by one below-threshold chunk leave the counter at
`max 0 (trigger_level - 2)`), the consumed `vad_prob` is reset to 0 after each
chunk, and the gate opens (mic leaves `WAIT_FOR_VAD`) exactly when the counter
reaches `trigger_level`. -/
theorem C1_vad_counter_hysteresis :
    (∀ (cfg : VadCfg) (s : VadState) (c : ℕ),
      s.mic = .WAIT_FOR_VAD →
      0 ≤ s.vad_activation →
      s.vad_activation < cfg.vad_trigger_level →
      ((vadStep cfg s c).2.vad_prob = 0
       ∧ ((vadStep cfg s c).2.mic = .WAIT_FOR_VAD →
           (vadStep cfg s c).2.vad_activation =
             (if cfg.vad_threshold ≤ s.vad_prob then s.vad_activation + 1
              else max 0 (s.vad_activation - 1)))
       ∧ ((vadStep cfg s c).2.mic ≠ .WAIT_FOR_VAD ↔
           (cfg.vad_threshold ≤ s.vad_prob
            ∧ s.vad_activation + 1 = cfg.vad_trigger_level))
       ∧ ((vadStep cfg s c).2.mic = .WAIT_FOR_VAD →
           0 ≤ (vadStep cfg s c).2.vad_activation
           ∧ (vadStep cfg s c).2.vad_activation < cfg.vad_trigger_level)))
    ∧ (∀ (cfg : VadCfg) (k : ℕ) (c c2 : ℕ) (p : ℚ),
        cfg.vad_trigger_level = (k : ℤ) + 1 →
        cfg.vad_threshold ≤ p →
        0 < cfg.vad_threshold →
        (vadRun cfg vadFresh (List.replicate k (c, p) ++ [(c2, 0)])).1 = []
        ∧ (vadRun cfg vadFresh (List.replicate k (c, p) ++ [(c2, 0)])).2.mic
            = .WAIT_FOR_VAD
        ∧ (vadRun cfg vadFresh (List.replicate k (c, p) ++ [(c2, 0)])).2.vad_activation
            = max 0 ((k : ℤ) - 1)
        ∧ (vadRun cfg vadFresh (List.replicate k (c, p) ++ [(c2, 0)])).2.vad_prob = 0) := by
  constructor
  · intro cfg s c hmic h0 hlt
    by_cases hθ : cfg.vad_threshold ≤ s.vad_prob
    · by_cases htr : cfg.vad_trigger_level ≤ s.vad_activation + 1
      · have heq : vadStep cfg s c =
            (takeLast cfg.vad_buffer_chunks (s.vad_chunk_buffer ++ [c]),
             ⟨.WAIT_FOR_WAKE_WORD, 0, [], 0⟩) := by
          simp [vadStep, hmic, hθ, htr]
        rw [heq]
        refine ⟨rfl, by simp, ?_, by simp⟩
        have hval : s.vad_activation + 1 = cfg.vad_trigger_level := by omega
        simp [hθ, hval]
      · have heq : vadStep cfg s c =
            ([], ⟨.WAIT_FOR_VAD, s.vad_activation + 1,
                  takeLast cfg.vad_buffer_chunks (s.vad_chunk_buffer ++ [c]), 0⟩) := by
          simp [vadStep, hmic, hθ, htr]
        rw [heq]
        refine ⟨rfl, fun _ => by simp [hθ], ?_, fun _ => ⟨by simp; omega, by simp; omega⟩⟩
        have hval : ¬ (s.vad_activation + 1 = cfg.vad_trigger_level) := by omega
        simp [hval]
    · have hdec : max 0 (s.vad_activation - 1) ≤ s.vad_activation := max_le h0 (by omega)
      have htr : ¬ (cfg.vad_trigger_level ≤ max 0 (s.vad_activation - 1)) := by
        intro hc; exact absurd (le_trans hc hdec) (not_le.mpr hlt)
      have heq : vadStep cfg s c =
          ([], ⟨.WAIT_FOR_VAD, max 0 (s.vad_activation - 1),
                takeLast cfg.vad_buffer_chunks (s.vad_chunk_buffer ++ [c]), 0⟩) := by
        simp [vadStep, hmic, hθ, htr]
      rw [heq]
      refine ⟨rfl, fun _ => by simp [hθ], ?_, ?_⟩
      · simp [hθ]
      · intro _
        refine ⟨by simp, ?_⟩
        show max 0 (s.vad_activation - 1) < cfg.vad_trigger_level
        exact lt_of_le_of_lt hdec hlt
  · intro cfg k c c2 p ht hp hθ
    have h1 := vadRun_replicate_above cfg c p hp k vadFresh rfl (le_refl 0)
      (by show (0:ℤ) + (k:ℤ) < cfg.vad_trigger_level; rw [ht]; omega)
    have hact1 : (vadRun cfg vadFresh (List.replicate k (c, p))).2.vad_activation = (k:ℤ) := by
      rw [h1.2.2]; show (0:ℤ) + (k:ℤ) = (k:ℤ); omega
    have hmic1 := h1.2.1
    have hnle : ¬ (cfg.vad_threshold ≤ (0:ℚ)) := not_le.mpr hθ
    have hmax : max 0 ((k:ℤ) - 1) ≤ (k:ℤ) := max_le (by positivity) (by omega)
    have hnotrig : ¬ (cfg.vad_trigger_level ≤ max 0 ((k:ℤ) - 1)) := by
      rw [ht]; intro hc; omega
    set s1 := (vadRun cfg vadFresh (List.replicate k (c, p))).2 with hs1
    have hstep2 : vadStep cfg { s1 with vad_prob := 0 } c2 =
        ([], ⟨.WAIT_FOR_VAD, max 0 ((k:ℤ) - 1),
              takeLast cfg.vad_buffer_chunks (s1.vad_chunk_buffer ++ [c2]), 0⟩) := by
      simp [vadStep, hmic1, hnle, hact1, hnotrig]
    have happ := vadRun_append cfg (List.replicate k (c, p)) [(c2, 0)] vadFresh
    refine ⟨?_, ?_, ?_, ?_⟩ <;>
      simp [happ, h1.1, vadRun, hstep2]

/-- Witness for C1 at a concrete input: threshold 1, trigger level 3, one
above-threshold step from counter 0, and the two-above-one-below scenario. -/
theorem C1_vad_counter_hysteresis_witness :
    (vadStep ⟨1, 3, 5⟩ ⟨.WAIT_FOR_VAD, 0, [], 1⟩ 7).2.vad_prob = 0
    ∧ (vadRun ⟨1, 3, 5⟩ vadFresh (List.replicate 2 ((1:ℕ), (1:ℚ)) ++ [((2:ℕ), (0:ℚ))])).1 = [] :=
  ⟨(C1_vad_counter_hysteresis.1 ⟨1, 3, 5⟩ ⟨.WAIT_FOR_VAD, 0, [], 1⟩ 7 rfl
      (by decide) (by decide)).1,
   (C1_vad_counter_hysteresis.2 ⟨1, 3, 5⟩ 2 1 2 1 (by decide) (by decide) (by decide)).1⟩

/-- Claim C2: while `mic == WAIT_FOR_VAD` every chunk is buffered in a ring of
capacity `vad_buffer_chunks` (oldest evicted, evicted chunks never emitted);
on trigger exactly the buffered chunks are emitted in capture order and all
later chunks pass through unbuffered.  With `vad_buffer_chunks = 5` and the
trigger reached on the 7th chunk, the emitted sequence is chunks 3..7 then 8
onward; chunks 1 and 2 are lost. -/
theorem C2_vad_buffer_flush :
    (∀ (cfg : VadCfg) (s : VadState) (inputs : List (ℕ × ℚ)),
      s.mic ≠ .WAIT_FOR_VAD → (vadRun cfg s inputs).1 = inputs.map Prod.fst)
    ∧ (∀ (cfg : VadCfg) (s : VadState) (inputs : List (ℕ × ℚ)),
        s.mic = .WAIT_FOR_VAD →
        takeLast cfg.vad_buffer_chunks s.vad_chunk_buffer = s.vad_chunk_buffer →
        0 ≤ s.vad_activation → s.vad_activation < cfg.vad_trigger_level →
        (∀ pr ∈ inputs, pr.2 < cfg.vad_threshold) →
        (vadRun cfg s inputs).1 = []
        ∧ (vadRun cfg s inputs).2.vad_chunk_buffer
            = takeLast cfg.vad_buffer_chunks (s.vad_chunk_buffer ++ inputs.map Prod.fst))
    ∧ ((vadRun ⟨1, 3, 5⟩ vadFresh
          [(1,0),(2,0),(3,0),(4,0),(5,1),(6,1),(7,1),(8,0)]).1 = [3,4,5,6,7,8]
        ∧ (vadRun ⟨1, 3, 5⟩ vadFresh
            [(1,0),(2,0),(3,0),(4,0),(5,1),(6,1),(7,1),(8,0)]).2.mic = .WAIT_FOR_WAKE_WORD
        ∧ 1 ∉ (vadRun ⟨1, 3, 5⟩ vadFresh
            [(1,0),(2,0),(3,0),(4,0),(5,1),(6,1),(7,1),(8,0)]).1
        ∧ 2 ∉ (vadRun ⟨1, 3, 5⟩ vadFresh
            [(1,0),(2,0),(3,0),(4,0),(5,1),(6,1),(7,1),(8,0)]).1) := by
  refine ⟨?_, ?_, ?_⟩
  · intro cfg s inputs h
    exact (vadRun_passthrough cfg inputs s h).1
  · intro cfg s inputs h hcap h0 hlt hbelow
    have h1 := vadRun_below cfg inputs s h hcap h0 hlt hbelow
    exact ⟨h1.1, h1.2.2.1⟩
  · decide

/-- Witness for C2 at concrete inputs: pass-through when already recording,
and below-threshold buffering from the fresh state. -/
theorem C2_vad_buffer_flush_witness :
    (vadRun ⟨1, 3, 5⟩ ⟨.RECORDING, 0, [], 0⟩ [((9:ℕ), (0:ℚ))]).1 = [9]
    ∧ (vadRun ⟨1, 3, 5⟩ vadFresh [((1:ℕ), (0:ℚ))]).1 = [] :=
  ⟨by
    have h := C2_vad_buffer_flush.1 ⟨1, 3, 5⟩ ⟨.RECORDING, 0, [], 0⟩ [((9:ℕ), (0:ℚ))]
      (by decide)
    simpa using h,
   (C2_vad_buffer_flush.2.1 ⟨1, 3, 5⟩ vadFresh [((1:ℕ), (0:ℚ))] rfl rfl (by decide)
      (by decide) (by decide)).1⟩

/-- Claim C10 (implicit): when the VAD gate triggers it resets the activation
counter to 0 and empties the chunk ring before consuming further input; a
chunk flushed on one trigger is never emitted again (the emitted stream is a
sublist of buffered-plus-incoming chunks, so distinct incoming chunks are
never duplicated), and a return to `WAIT_FOR_VAD` starts from counter 0. -/
theorem C10_vad_trigger_reset :
    (∀ (cfg : VadCfg) (s : VadState) (c : ℕ),
      s.mic = .WAIT_FOR_VAD → (vadStep cfg s c).2.mic ≠ .WAIT_FOR_VAD →
      (vadStep cfg s c).2.vad_activation = 0
      ∧ (vadStep cfg s c).2.vad_chunk_buffer = []
      ∧ (vadStep cfg s c).2.mic = .WAIT_FOR_WAKE_WORD)
    ∧ (∀ (cfg : VadCfg) (s : VadState) (inputs : List (ℕ × ℚ)),
        List.Sublist (vadRun cfg s inputs).1 (s.vad_chunk_buffer ++ inputs.map Prod.fst))
    ∧ (∀ (cfg : VadCfg) (inputs : List (ℕ × ℚ)),
        (inputs.map Prod.fst).Nodup → ((vadRun cfg vadFresh inputs).1).Nodup) := by
  refine ⟨?_, ?_, ?_⟩
  · intro cfg s c hmic hne
    by_cases htr : cfg.vad_trigger_level ≤
        (if cfg.vad_threshold ≤ s.vad_prob then s.vad_activation + 1
         else max 0 (s.vad_activation - 1))
    · have heq : vadStep cfg s c =
          (takeLast cfg.vad_buffer_chunks (s.vad_chunk_buffer ++ [c]),
           ⟨.WAIT_FOR_WAKE_WORD, 0, [], 0⟩) := by
        simp only [vadStep, hmic]
        simp [htr]
      rw [heq]
      exact ⟨rfl, rfl, rfl⟩
    · have heq : vadStep cfg s c =
          ([], ⟨.WAIT_FOR_VAD,
                if cfg.vad_threshold ≤ s.vad_prob then s.vad_activation + 1
                  else max 0 (s.vad_activation - 1),
                takeLast cfg.vad_buffer_chunks (s.vad_chunk_buffer ++ [c]), 0⟩) := by
        simp only [vadStep, hmic]
        simp [htr]
      rw [heq] at hne
      simp at hne
  · intro cfg s inputs
    exact vadRun_sublist cfg inputs s
  · intro cfg inputs hnd
    have h := vadRun_sublist cfg inputs vadFresh
    simp only [vadFresh, List.nil_append] at h
    exact List.Nodup.sublist h hnd

/-- Witness for C10 at a concrete input: trigger level 3 reached from counter
2 resets the stage, and a distinct-chunk run emits without duplicates. -/
theorem C10_vad_trigger_reset_witness :
    (vadStep ⟨1, 3, 5⟩ ⟨.WAIT_FOR_VAD, 2, [7, 8], 1⟩ 9).2.vad_activation = 0
    ∧ ((vadRun ⟨1, 3, 5⟩ vadFresh [(1,1),(2,1),(3,1),(4,0)]).1).Nodup :=
  ⟨(C10_vad_trigger_reset.1 ⟨1, 3, 5⟩ ⟨.WAIT_FOR_VAD, 2, [7, 8], 1⟩ 9 rfl (by decide)).1,
   C10_vad_trigger_reset.2.2 ⟨1, 3, 5⟩ [(1,1),(2,1),(3,1),(4,0)] (by decide)⟩

/-! ### Claim C5: the `MicState` enumeration of `state.py` -/

/-- Claim C5 evaluated on the code: `state.py` declares only three members
(`NOT_RECORDING`, `WAIT_FOR_VAD`, `RECORDING`), not the four the spec lists,
and the `next` successor therefore maps `WAIT_FOR_VAD` directly to
`RECORDING`, with no `WAIT_FOR_WAKE_WORD` in between (the member that
`mic_process.py` references). -/
theorem C5_micstate_enumeration :
    Fintype.card MicState = 3
    ∧ (∀ s : MicState, s = .NOT_RECORDING ∨ s = .WAIT_FOR_VAD ∨ s = .RECORDING)
    ∧ MicState.next .NOT_RECORDING = some .WAIT_FOR_VAD
    ∧ MicState.next .WAIT_FOR_VAD = some .RECORDING
    ∧ MicState.next .RECORDING = none := by
  refine ⟨by decide, ?_, by decide, by decide, by decide⟩
  intro s
  cases s <;> simp

/-! ## `remote.py` `_audio_to_events`: the audio/event multiplexer

The loop keeps one `audio.get()` task and one `websocket.receive()` task
pending, awaits whichever completes first, services it and (on some paths)
re-arms it.  We embed the inbound-message dispatch of the loop body and a
step function counting the outstanding awaits. -/

/-- An inbound websocket message as seen by `_audio_to_events`: either a
non-text frame, or a text frame whose JSON decodes to an envelope with a
`type`, an event type and an optional error `code`
(`event["event"]["data"].get("code")`; the event type and code are only
meaningful when the envelope type is `"event"`). -/
inductive WsMsg
  | nonText
  | text (envType : String) (etype : String) (code : Option String)
deriving DecidableEq, Repr

/-- What one completion of the receive task does, following the source order
of the `if event_task in done:` block: a non-text frame logs a warning and
`continue`s; an envelope whose `type` is not `"event"` `continue`s; otherwise
the event is yielded, then `run-end` breaks, then `error` with a code other
than `"wake-word-timeout"` breaks; only after all of that is a new
`websocket.receive()` task created.  The `continue` paths therefore skip the
re-arm at the end of the loop body. -/
inductive MuxOutcome
  | skipNoRearm
  | yieldRearm
  | yieldStop
deriving DecidableEq, Repr

def handleInbound : WsMsg → MuxOutcome
  | .nonText => .skipNoRearm
  | .text envType etype code =>
    if envType ≠ "event" then .skipNoRearm
    else if etype = "run-end" then .yieldStop
    else if etype = "error" ∧ code ≠ some "wake-word-timeout" then .yieldStop
    else .yieldRearm

/-- The multiplexer's suspension-point state: how many `websocket.receive()`
tasks and how many `audio.get()` tasks are outstanding, how many
`send_bytes` tasks have been spawned, and whether the loop has broken. -/
structure MuxState where
  recvPending : ℕ
  audioPending : ℕ
  sendsStarted : ℕ
  finished : Bool
deriving DecidableEq, Repr

/-- Before the loop, `_audio_to_events` creates exactly one `audio.get()`
task and one `websocket.receive()` task. -/
def muxInit : MuxState :=
  { recvPending := 1, audioPending := 1, sendsStarted := 0, finished := false }

/-- A completion delivered by `asyncio.wait`: either the audio task finished
with a chunk, or the receive task finished with a message. -/
inductive MuxCompletion
  | audioReady (chunk : ℕ)
  | wsReady (m : WsMsg)
deriving DecidableEq, Repr

/-- One serviced completion of the loop.  An audio completion spawns a send
task and immediately re-creates the audio task (net: `audioPending`
unchanged).  A receive completion consumes the receive task and creates a new
one only on the `yieldRearm` path; `yieldStop` breaks the loop.  A completion
for a task kind with nothing outstanding cannot be serviced and leaves the
state unchanged. -/
def muxStep (s : MuxState) (e : MuxCompletion) : MuxState :=
  if s.finished then s
  else
    match e with
    | .audioReady _ =>
      if 1 ≤ s.audioPending then { s with sendsStarted := s.sendsStarted + 1 } else s
    | .wsReady m =>
      if 1 ≤ s.recvPending then
        match handleInbound m with
        | .skipNoRearm => { s with recvPending := s.recvPending - 1 }
        | .yieldRearm => s
        | .yieldStop => { s with recvPending := s.recvPending - 1, finished := true }
      else s

def muxRun (s : MuxState) (es : List MuxCompletion) : MuxState :=
  es.foldl muxStep s

/-- Claim C3 evaluated on the code: after the very first inbound completion
is a non-text frame (or a text envelope whose type is not `"event"`), the
loop has zero outstanding receive awaits — not exactly one — because the
re-arm sits after the `continue` statements in the loop body; the receive
side is then dead, so even a subsequent `run-end` can never be received,
while the audio side still re-arms normally. -/
theorem C3_mux_receive_not_rearmed :
    (muxRun muxInit [.wsReady .nonText]).finished = false
    ∧ (muxRun muxInit [.wsReady .nonText]).recvPending = 0
    ∧ (muxRun muxInit [.wsReady (.text "result" "run-end" none)]).recvPending = 0
    ∧ (muxRun muxInit [.wsReady .nonText,
        .wsReady (.text "event" "run-end" none)]).finished = false
    ∧ (muxRun muxInit [.wsReady .nonText, .audioReady 0]).audioPending = 1
    ∧ (muxRun muxInit [.wsReady .nonText, .audioReady 0]).sendsStarted = 1
    ∧ handleInbound (.text "event" "stt-end" none) = .yieldRearm := by
  decide

/-- Claim C6: the multiplexer's loop breaks exactly on a well-formed event
whose type is `"run-end"`, or `"error"` with a code other than
`"wake-word-timeout"`; an `"error"` event carrying the wake-word-timeout code
is yielded and the loop continues (its receive task is re-armed), and a
non-event completion never terminates the loop. -/
theorem C6_mux_terminal_conditions :
    (∀ (envType etype : String) (code : Option String),
      handleInbound (.text envType etype code) = .yieldStop ↔
        (envType = "event"
         ∧ (etype = "run-end" ∨ (etype = "error" ∧ code ≠ some "wake-word-timeout"))))
    ∧ handleInbound (.text "event" "error" (some "wake-word-timeout")) = .yieldRearm
    ∧ handleInbound .nonText ≠ .yieldStop
    ∧ (∀ (s : MuxState) (m : WsMsg), s.finished = false →
        ((muxStep s (.wsReady m)).finished = true ↔
          (1 ≤ s.recvPending ∧ handleInbound m = .yieldStop)))
    ∧ (∀ (s : MuxState) (c : ℕ), s.finished = false →
        (muxStep s (.audioReady c)).finished = false) := by
  refine ⟨?_, by decide, by decide, ?_, ?_⟩
  · intro envType etype code
    simp only [handleInbound]
    split_ifs with h1 h2 h3 <;> simp_all <;> tauto
  · intro s m hf
    simp only [muxStep, hf]
    by_cases hr : 1 ≤ s.recvPending
    · simp only [hr, if_true, Bool.false_eq_true, if_false]
      cases hmsg : handleInbound m <;> simp_all
    · simp [hr, hf]
  · intro s c hf
    simp only [muxStep, hf]
    by_cases ha : 1 ≤ s.audioPending <;> simp [ha, hf]

/-- Witness for C6 at concrete inputs: an `"error"` event without the benign
code terminates the loop; an audio completion never does. -/
theorem C6_mux_terminal_conditions_witness :
    (handleInbound (.text "event" "error" (some "stt-stream-failed")) = .yieldStop ↔
      ("event" = "event"
       ∧ ("error" = "run-end"
          ∨ ("error" = "error" ∧ some "stt-stream-failed" ≠ some "wake-word-timeout"))))
    ∧ ((muxStep muxInit (.wsReady (.text "event" "run-end" none))).finished = true ↔
        (1 ≤ muxInit.recvPending
         ∧ handleInbound (.text "event" "run-end" none) = .yieldStop))
    ∧ (muxStep muxInit (.audioReady 5)).finished = false :=
  ⟨C6_mux_terminal_conditions.1 "event" "error" (some "stt-stream-failed"),
   C6_mux_terminal_conditions.2.2.2.1 muxInit (.text "event" "run-end" none) rfl,
   C6_mux_terminal_conditions.2.2.2.2 muxInit 5 rfl⟩

/-! ## `__main__.py` `_playback_proc`: the playback coordinator

The coordinator consumes the FIFO queue with `iter(playback_queue.get,
None)`.  The loop body has no local exception handler: `play(item.media)` is
called bare, so any failure propagates to the function-level handler, which
logs and calls `os._exit(-1)`. -/

/-- The playback-queue command union of `__main__.py` (`PlayMedia`,
`SetMicState`, `Duck`); the queue itself carries `Option`s of these, `none`
being the stop sentinel. -/
inductive PlaybackItem
  | PlayMedia (media : String)
  | SetMicState (mic_state : MicState)
  | Duck (enable : Bool)
deriving DecidableEq, Repr

/-- An observable action performed by the coordinator loop. -/
inductive PlaybackEffect
  | played (media : String)
  | micSet (mic_state : MicState)
  | duckSet (enable : Bool)
deriving DecidableEq, Repr

/-- How a run of the coordinator ends: the `None` sentinel (normal return),
an uncaught exception reaching the function-level handler (`os._exit(-1)`),
or — in this finite model — running out of queued items (the real loop would
block on `queue.get`). -/
inductive PlaybackOutcome
  | exitedNormally
  | processExit
  | blockedOnQueue
deriving DecidableEq, Repr

/-- Embedding of the `_playback_proc` queue loop.  `playOk` abstracts the
`play` collaborator: `false` means `play(media)` raises (for example, empty
or undecodable media makes `wave.open` fail inside `media_to_chunks`).
Returns the effects performed in order, the final `state.mic`, and the
outcome.  There is no per-item handler: a failing `PlayMedia` aborts the loop
with `processExit` and nothing after it runs. -/
def playbackRun (playOk : String → Bool) (mic : MicState) :
    List (Option PlaybackItem) → List PlaybackEffect × MicState × PlaybackOutcome
  | [] => ([], mic, .blockedOnQueue)
  | none :: _ => ([], mic, .exitedNormally)
  | some (.PlayMedia m) :: rest =>
    if playOk m then
      let r := playbackRun playOk mic rest
      (.played m :: r.1, r.2)
    else ([], mic, .processExit)
  | some (.SetMicState st) :: rest =>
    let r := playbackRun playOk st rest
    (.micSet st :: r.1, r.2)
  | some (.Duck e) :: rest =>
    let r := playbackRun playOk mic rest
    (.duckSet e :: r.1, r.2)

/-- Claim C4 evaluated on the code: a `PlayMedia` whose execution fails is
not caught locally — the coordinator performs no further command (the queued
`SetMicState` and `Duck` never execute, `state.mic` is left unchanged) and
the process exits; by contrast, when every `play` succeeds the same queue
runs to completion in order. -/
theorem C4_playmedia_failure_kills_coordinator :
    playbackRun (fun m => m != "bad-media") MicState.NOT_RECORDING
        [some (.PlayMedia "bad-media"), some (.SetMicState .RECORDING),
         some (.Duck false), none]
      = ([], MicState.NOT_RECORDING, .processExit)
    ∧ playbackRun (fun _ => true) MicState.NOT_RECORDING
        [some (.PlayMedia "bad-media"), some (.SetMicState .RECORDING),
         some (.Duck false), none]
      = ([.played "bad-media", .micSet .RECORDING, .duckSet false],
         MicState.RECORDING, .exitedNormally) := by
  decide

/-! ## `util.py` `multiply_volume`

A chunk is modelled as its list of decoded 16-bit samples (`array("h", ...)`
decoding elided); the float multiplier is modelled as a rational.  Python's
`int(...)` truncates toward zero. -/

/-- Embedding of the inner `_clamp` of `multiply_volume`:
`max(-32768, min(32767, val))`. -/
def clampSample (val : ℚ) : ℚ := max (-32768) (min 32767 val)

/-- Python `int(...)` on a rational: truncation toward zero. -/
def truncQ (q : ℚ) : ℤ := if 0 ≤ q then ⌊q⌋ else ⌈q⌉

/-- Embedding of `multiply_volume`: every sample is multiplied, clamped to
the signed 16-bit range, and truncated to an int. -/
def multiply_volume (chunk : List ℤ) (volume_multiplier : ℚ) : List ℤ :=
  chunk.map fun (value : ℤ) => truncQ (clampSample ((value : ℚ) * volume_multiplier))

lemma truncQ_intCast (z : ℤ) : truncQ (z : ℚ) = z := by
  unfold truncQ
  split_ifs with h
  · exact Int.floor_intCast z
  · exact Int.ceil_intCast z

lemma truncQ_le_truncQ {a b : ℚ} (h : a ≤ b) : truncQ a ≤ truncQ b := by
  unfold truncQ
  by_cases ha : 0 ≤ a
  · rw [if_pos ha, if_pos (le_trans ha h)]
    exact Int.floor_mono h
  · by_cases hb : 0 ≤ b
    · rw [if_neg ha, if_pos hb]
      have h1 : ⌈a⌉ ≤ 0 := Int.ceil_le.mpr (by exact_mod_cast le_of_lt (not_le.mp ha))
      have h2 : (0 : ℤ) ≤ ⌊b⌋ := Int.floor_nonneg.mpr hb
      omega
    · rw [if_neg ha, if_neg hb]
      exact Int.ceil_mono h

lemma truncQ_neg32768 : truncQ (-32768 : ℚ) = -32768 := by
  have h := truncQ_intCast (-32768)
  push_cast at h
  exact h

lemma truncQ_32767 : truncQ (32767 : ℚ) = 32767 := by
  have h := truncQ_intCast 32767
  push_cast at h
  exact h

/-- Clamping before truncation is clamping (in `ℤ`) after truncation: the
key fact behind "clamped, not wrapped". -/
lemma truncQ_clampSample (q : ℚ) :
    truncQ (clampSample q) = max (-32768) (min 32767 (truncQ q)) := by
  rcases le_or_lt q (-32768) with hlo | hgt
  · have hc : clampSample q = -32768 := by
      unfold clampSample
      rw [min_eq_right (le_trans hlo (by norm_num)), max_eq_left hlo]
    have hb : truncQ q ≤ -32768 := by
      have := truncQ_le_truncQ hlo
      rwa [truncQ_neg32768] at this
    rw [hc, truncQ_neg32768, min_eq_right (le_trans hb (by norm_num)),
      max_eq_left hb]
  · rcases le_or_lt (32767 : ℚ) q with hhi | hmid
    · have hc : clampSample q = 32767 := by
        unfold clampSample
        rw [min_eq_left hhi, max_eq_right (by norm_num)]
      have hb : (32767 : ℤ) ≤ truncQ q := by
        have := truncQ_le_truncQ hhi
        rwa [truncQ_32767] at this
      rw [hc, truncQ_32767, min_eq_left hb, max_eq_right (by norm_num)]
    · have hc : clampSample q = q := by
        unfold clampSample
        rw [min_eq_right (le_of_lt hmid), max_eq_right (le_of_lt hgt)]
      have hb1 : (-32768 : ℤ) ≤ truncQ q := by
        have := truncQ_le_truncQ (le_of_lt hgt)
        rwa [truncQ_neg32768] at this
      have hb2 : truncQ q ≤ 32767 := by
        have := truncQ_le_truncQ (le_of_lt hmid)
        rwa [truncQ_32767] at this
      rw [hc, min_eq_right hb2, max_eq_right hb1]

/-- The whole stage, in clamped-integer form. -/
lemma multiply_volume_map (chunk : List ℤ) (m : ℚ) :
    multiply_volume chunk m =
      chunk.map (fun (s : ℤ) => max (-32768) (min 32767 (truncQ ((s : ℚ) * m)))) := by
  simp [multiply_volume, truncQ_clampSample]

/-- A sample whose scaled value is an exact integer is mapped to that integer
clamped to the 16-bit range. -/
lemma multiply_volume_int (s z : ℤ) (m : ℚ) (h : (s : ℚ) * m = (z : ℚ)) :
    multiply_volume [s] m = [max (-32768) (min 32767 z)] := by
  rw [multiply_volume_map]
  simp [h, truncQ_intCast]

/-- Claim C8: every output sample is the input sample times the multiplier,
clamped to `[-32768, 32767]` with no wraparound (with Python's `int`
truncation toward zero on non-integer products); length is preserved, outputs
are in range, and the two concrete cases of the spec hold. -/
theorem C8_multiply_volume_clamps :
    (∀ (chunk : List ℤ) (m : ℚ), (multiply_volume chunk m).length = chunk.length)
    ∧ (∀ (chunk : List ℤ) (m : ℚ),
        multiply_volume chunk m =
          chunk.map (fun (s : ℤ) => max (-32768) (min 32767 (truncQ ((s : ℚ) * m)))))
    ∧ (∀ (chunk : List ℤ) (m : ℚ) (x : ℤ), x ∈ multiply_volume chunk m →
        -32768 ≤ x ∧ x ≤ 32767)
    ∧ (∀ (s z : ℤ) (m : ℚ), (s : ℚ) * m = (z : ℚ) →
        multiply_volume [s] m = [max (-32768) (min 32767 z)])
    ∧ multiply_volume [20000] 2 = [32767]
    ∧ multiply_volume [-32768] (1/2) = [-16384] := by
  refine ⟨?_, multiply_volume_map, ?_, multiply_volume_int, ?_, ?_⟩
  · intro chunk m
    rw [multiply_volume_map, List.length_map]
  · intro chunk m x hx
    rw [multiply_volume_map] at hx
    obtain ⟨s, -, rfl⟩ := List.mem_map.mp hx
    constructor
    · exact le_max_left _ _
    · exact max_le (by norm_num) (min_le_left _ _)
  · have h := multiply_volume_int 20000 40000 2 (by push_cast; norm_num)
    rw [h]
    decide
  · have h := multiply_volume_int (-32768) (-16384) (1/2) (by push_cast; norm_num)
    rw [h]
    decide

/-- Witness for C8 at concrete inputs: the range bound at a sample of the
clamped output, and the exact-integer case at sample 0 with multiplier 2. -/
theorem C8_multiply_volume_clamps_witness :
    ((-32768 : ℤ) ≤ 32767 ∧ (32767 : ℤ) ≤ 32767)
    ∧ multiply_volume [0] 2 = [max (-32768) (min 32767 0)] :=
  ⟨C8_multiply_volume_clamps.2.2.1 [20000] 2 32767
     (by rw [C8_multiply_volume_clamps.2.2.2.2.1]; simp),
   C8_multiply_volume_clamps.2.2.2.1 0 0 2 (by simp)⟩

/-! ## `remote.py` `_get_pipeline_id`: pipeline-name resolution

The remote reports `result.pipelines` as a list of objects with `name` and
`id`; `_get_pipeline_id` walks the list and takes the first whose `name`
equals the configured name exactly, else warns and returns `None`. -/

structure HaPipeline where
  name : String
  id : String
deriving DecidableEq, Repr

/-- Embedding of the lookup loop of `_get_pipeline_id` (the `for`/`break`
over `msg["result"]["pipelines"]`): the id of the first pipeline whose name
matches `pipeline_name` exactly, or `none`. -/
def get_pipeline_id : List HaPipeline → String → Option String
  | [], _ => none
  | p :: rest, pipeline_name =>
    if p.name = pipeline_name then some p.id else get_pipeline_id rest pipeline_name

/-- Name normalisation for the fallback that the spec describes
(case-insensitive and trimmed), written over the character list so that it
evaluates by kernel reduction. -/
def normalizeName (s : String) : String :=
  String.mk
    (((s.data.dropWhile Char.isWhitespace).reverse.dropWhile
        Char.isWhitespace).reverse.map Char.toLower)

/-- Resolution as claim C9 describes it — exact match first, then a
case-insensitive/trimmed match — stated only to compare against the code. -/
def resolvePipelineClaimed (ps : List HaPipeline) (n : String) : Option String :=
  match ps.find? (fun p => p.name = n) with
  | some p => some p.id
  | none => (ps.find? (fun p => normalizeName p.name = normalizeName n)).map (·.id)

/-- Counterexample to claim C9: with a single pipeline named `"Assist"` and
the configured name `"assist"`, the claimed resolution falls back to the
case-insensitive match and returns its id, but the code returns `none` (it
has no fallback). -/
theorem C9_counterexample_no_fallback :
    get_pipeline_id [⟨"Assist", "p1"⟩] "assist" = none
    ∧ resolvePipelineClaimed [⟨"Assist", "p1"⟩] "assist" = some "p1" := by
  constructor
  · decide
  · decide

/-- Claim C9 as amended: resolution returns the id of the first pipeline
whose name matches the configured name exactly; when no name matches exactly
it returns `none` (the code then warns and proceeds unpinned) — there is no
case-insensitive or trimmed fallback. -/
theorem C9_exact_match_only :
    (∀ (ps : List HaPipeline) (n : String),
      get_pipeline_id ps n = (ps.find? (fun p => p.name = n)).map (·.id))
    ∧ (∀ (ps : List HaPipeline) (n : String),
        (∀ p ∈ ps, p.name ≠ n) → get_pipeline_id ps n = none) := by
  constructor
  · intro ps n
    induction ps with
    | nil => rfl
    | cons p rest ih =>
      by_cases h : p.name = n
      · simp [get_pipeline_id, List.find?, h]
      · simp only [get_pipeline_id, List.find?]
        rw [if_neg h, ih]
        simp [h]
  · intro ps n hnone
    induction ps with
    | nil => rfl
    | cons p rest ih =>
      have h1 : p.name ≠ n := hnone p (List.mem_cons_self _ _)
      simp only [get_pipeline_id]
      rw [if_neg h1]
      exact ih (fun q hq => hnone q (List.mem_cons_of_mem _ hq))

/-- Witness for C9 (amended) at a concrete input: a two-entry list resolves
to the first exact match, and a list with no exact match resolves to none. -/
theorem C9_exact_match_only_witness :
    get_pipeline_id [HaPipeline.mk "Other" "p0", HaPipeline.mk "Assist" "p1"] "Assist"
      = (([HaPipeline.mk "Other" "p0", HaPipeline.mk "Assist" "p1"]).find?
          (fun p => p.name = "Assist")).map (·.id)
    ∧ get_pipeline_id [HaPipeline.mk "Assist" "p1"] "assist" = none :=
  ⟨C9_exact_match_only.1 [HaPipeline.mk "Other" "p0", HaPipeline.mk "Assist" "p1"] "Assist",
   C9_exact_match_only.2 [HaPipeline.mk "Assist" "p1"] "assist" (by decide)⟩

/-! ## `snd.py` `duck`: output ducking with remembered volumes

`duck(enable)` iterates over the snapshot `pactl.sink_input_list()`; for
every input of the chosen sink other than the satellite's own stream it
either (enable) remembers the stream's current volume in `ducked` via
`setdefault` — so an already-remembered stream is not overwritten — and sets
the stream to `ducking_volume`, or (disable) pops the remembered volume and
restores it.  Streams are identified by `stream.index`; `ducked` is the
`dict` mapping index to the pre-duck volume. -/

/-- The name of the satellite's own playback stream.  `snd.py` imports
`APP_NAME` from `mic.py` (this snapshot's `mic.py` does not define it; the
actual value is irrelevant to the claims, only its role as the excluded
name). -/
def APP_NAME : String := "homeassistant-satellite"

/-- One entry of `pactl.sink_input_list()`: index, application name, owning
sink and current volume. -/
structure SinkInput where
  index : ℕ
  name : String
  sink : ℕ
  volume : ℚ
deriving DecidableEq, Repr

/-- The server-side state `duck` manipulates: the sink inputs (with their
current volumes) and the `ducked` map of remembered pre-duck volumes. -/
structure SndState where
  streams : List SinkInput
  ducked : List (ℕ × ℚ)
deriving DecidableEq, Repr

/-- `pactl.volume_set_all_chans` / `pactl.sink_input_volume_set`: set the
volume of the stream with the given index. -/
def setVolume : List SinkInput → ℕ → ℚ → List SinkInput
  | [], _, _ => []
  | st :: rest, i, v =>
    (if st.index = i then { st with volume := v } else st) :: setVolume rest i v

/-- Lookup in the `ducked` dict. -/
def duckLookup : List (ℕ × ℚ) → ℕ → Option ℚ
  | [], _ => none
  | kv :: rest, i => if kv.1 = i then some kv.2 else duckLookup rest i

/-- `ducked.pop(i)`: remove the entry with key `i`. -/
def duckRemove : List (ℕ × ℚ) → ℕ → List (ℕ × ℚ)
  | [], _ => []
  | kv :: rest, i => if kv.1 = i then duckRemove rest i else kv :: duckRemove rest i

/-- One iteration of the `for stream in pactl.sink_input_list():` loop of
`duck`.  `st` is the snapshot entry being visited (its `volume` is the value
read by `PulseVolumeInfo(stream.volume.values)`); `acc` is the evolving
server state. -/
def duckStep (ducking_volume : ℚ) (sinkIndex : ℕ) (enable : Bool)
    (acc : SndState) (st : SinkInput) : SndState :=
  if st.sink = sinkIndex ∧ st.name ≠ APP_NAME then
    if enable then
      { streams := setVolume acc.streams st.index ducking_volume,
        ducked :=
          match duckLookup acc.ducked st.index with
          | some _ => acc.ducked
          | none => acc.ducked ++ [(st.index, st.volume)] }
    else
      match duckLookup acc.ducked st.index with
      | some v =>
        { streams := setVolume acc.streams st.index v,
          ducked := duckRemove acc.ducked st.index }
      | none => acc
  else acc

/-- Embedding of `duck(enable)`: fold the loop body over the snapshot of the
sink-input list taken at call time. -/
def duck (ducking_volume : ℚ) (sinkIndex : ℕ) (enable : Bool) (s : SndState) : SndState :=
  s.streams.foldl (duckStep ducking_volume sinkIndex enable) s

/-- The stream with the given index. -/
def findStream : List SinkInput → ℕ → Option SinkInput
  | [], _ => none
  | st :: rest, i => if st.index = i then some st else findStream rest i

/-! ### Helper lemmas about `duck` -/

@[simp] lemma volume_update_index (a : SinkInput) (v : ℚ) :
    ({ a with volume := v }).index = a.index := rfl

@[simp] lemma volume_update_name (a : SinkInput) (v : ℚ) :
    ({ a with volume := v }).name = a.name := rfl

@[simp] lemma volume_update_sink (a : SinkInput) (v : ℚ) :
    ({ a with volume := v }).sink = a.sink := rfl

lemma findStream_setVolume_ne (l : List SinkInput) (j i : ℕ) (v : ℚ) (h : j ≠ i) :
    findStream (setVolume l j v) i = findStream l i := by
  induction l with
  | nil => rfl
  | cons a rest ih =>
    by_cases ha : a.index = j
    · have hai : ¬ a.index = i := fun h2 => h (ha.symm.trans h2)
      simp only [setVolume, findStream, if_pos ha, volume_update_index, if_neg hai]
      exact ih
    · by_cases hai : a.index = i
      · simp only [setVolume, findStream, if_neg ha, if_pos hai]
      · simp only [setVolume, findStream, if_neg ha, if_neg hai]
        exact ih

lemma findStream_setVolume_self (l : List SinkInput) (i : ℕ) (v : ℚ) :
    findStream (setVolume l i v) i
      = (findStream l i).map (fun a => { a with volume := v }) := by
  induction l with
  | nil => rfl
  | cons a rest ih =>
    by_cases hai : a.index = i
    · simp only [setVolume, findStream, if_pos hai, volume_update_index]
      rfl
    · simp only [setVolume, findStream, if_neg hai]
      exact ih

lemma duckLookup_append_ne (d : List (ℕ × ℚ)) (j i : ℕ) (v : ℚ) (h : j ≠ i) :
    duckLookup (d ++ [(j, v)]) i = duckLookup d i := by
  induction d with
  | nil => simp only [List.nil_append, duckLookup, if_neg h]
  | cons kv rest ih =>
    by_cases hk : kv.1 = i
    · simp only [List.cons_append, duckLookup, if_pos hk]
    · simp only [List.cons_append, duckLookup, if_neg hk]
      exact ih

lemma duckLookup_append_self (d : List (ℕ × ℚ)) (i : ℕ) (v : ℚ)
    (h : duckLookup d i = none) :
    duckLookup (d ++ [(i, v)]) i = some v := by
  induction d with
  | nil => simp [duckLookup]
  | cons kv rest ih =>
    by_cases hk : kv.1 = i
    · rw [duckLookup, if_pos hk] at h
      exact absurd h (by simp)
    · rw [duckLookup, if_neg hk] at h
      simp only [List.cons_append, duckLookup, if_neg hk]
      exact ih h

lemma duckLookup_remove_self (d : List (ℕ × ℚ)) (i : ℕ) :
    duckLookup (duckRemove d i) i = none := by
  induction d with
  | nil => rfl
  | cons kv rest ih =>
    by_cases hk : kv.1 = i
    · simp only [duckRemove, if_pos hk]
      exact ih
    · simp only [duckRemove, if_neg hk, duckLookup]
      exact ih

lemma duckLookup_remove_ne (d : List (ℕ × ℚ)) (j i : ℕ) (h : j ≠ i) :
    duckLookup (duckRemove d j) i = duckLookup d i := by
  induction d with
  | nil => rfl
  | cons kv rest ih =>
    by_cases hkj : kv.1 = j
    · have hki : ¬ kv.1 = i := fun h2 => h (hkj.symm.trans h2)
      simp only [duckRemove, if_pos hkj, duckLookup, if_neg hki]
      exact ih
    · by_cases hki : kv.1 = i
      · simp only [duckRemove, if_neg hkj, duckLookup, if_pos hki]
      · simp only [duckRemove, if_neg hkj, duckLookup, if_neg hki]
        exact ih

lemma findStream_mem {l : List SinkInput} {i : ℕ} {a : SinkInput}
    (h : findStream l i = some a) : a ∈ l := by
  induction l with
  | nil => simp [findStream] at h
  | cons x rest ih =>
    by_cases hx : x.index = i
    · rw [findStream, if_pos hx] at h
      obtain rfl := Option.some.inj h
      exact List.mem_cons_self _ _
    · rw [findStream, if_neg hx] at h
      exact List.mem_cons_of_mem _ (ih h)

/-- A loop iteration for a stream with a different index does not affect the
volume of, or the remembered entry for, index `i`. -/
lemma duckStep_ne (dv : ℚ) (k : ℕ) (e : Bool) (acc : SndState) (x : SinkInput)
    (i : ℕ) (h : x.index ≠ i) :
    findStream (duckStep dv k e acc x).streams i = findStream acc.streams i
    ∧ duckLookup (duckStep dv k e acc x).ducked i = duckLookup acc.ducked i := by
  by_cases hc : x.sink = k ∧ x.name ≠ APP_NAME
  · cases e with
    | false =>
      cases hl : duckLookup acc.ducked x.index with
      | none => simp [duckStep, hc, hl]
      | some v =>
        constructor
        · simp only [duckStep, if_pos hc, hl]
          exact findStream_setVolume_ne _ _ _ _ h
        · simp only [duckStep, if_pos hc, hl]
          exact duckLookup_remove_ne _ _ _ h
    | true =>
      cases hl : duckLookup acc.ducked x.index with
      | none =>
        constructor
        · simp only [duckStep, if_pos hc, hl]
          exact findStream_setVolume_ne _ _ _ _ h
        · simp only [duckStep, if_pos hc, hl]
          exact duckLookup_append_ne _ _ _ _ h
      | some v =>
        constructor
        · simp only [duckStep, if_pos hc, hl]
          exact findStream_setVolume_ne _ _ _ _ h
        · simp [duckStep, hc, hl]
  · simp [duckStep, hc]

/-- Folding the loop over streams none of which has index `i` preserves both
observations at `i`. -/
lemma duckFold_ne (dv : ℚ) (k : ℕ) (e : Bool) (xs : List SinkInput) :
    ∀ (acc : SndState) (i : ℕ), (∀ x ∈ xs, x.index ≠ i) →
      findStream (xs.foldl (duckStep dv k e) acc).streams i = findStream acc.streams i
      ∧ duckLookup (xs.foldl (duckStep dv k e) acc).ducked i = duckLookup acc.ducked i := by
  induction xs with
  | nil => intro acc i _; exact ⟨rfl, rfl⟩
  | cons x rest ih =>
    intro acc i hall
    have hx := hall x (List.mem_cons_self _ _)
    have h1 := duckStep_ne dv k e acc x i hx
    have h2 := ih (duckStep dv k e acc x) i (fun y hy => hall y (List.mem_cons_of_mem _ hy))
    simp only [List.foldl_cons]
    exact ⟨h2.1.trans h1.1, h2.2.trans h1.2⟩

/-- The iteration for the target stream under `enable`: its volume is set to
the ducking volume, and `setdefault` remembers the snapshot volume only when
no entry exists yet. -/
lemma duckStep_target_enable (dv : ℚ) (k : ℕ) (acc : SndState) (x : SinkInput)
    (hsink : x.sink = k) (hname : x.name ≠ APP_NAME) :
    findStream (duckStep dv k true acc x).streams x.index
      = (findStream acc.streams x.index).map (fun a => { a with volume := dv })
    ∧ duckLookup (duckStep dv k true acc x).ducked x.index
      = some ((duckLookup acc.ducked x.index).getD x.volume) := by
  have hc : x.sink = k ∧ x.name ≠ APP_NAME := ⟨hsink, hname⟩
  cases hl : duckLookup acc.ducked x.index with
  | none =>
    constructor
    · simp only [duckStep, if_pos hc, hl]
      exact findStream_setVolume_self _ _ _
    · simp only [duckStep, if_pos hc, hl, Option.getD_none]
      exact duckLookup_append_self _ _ _ hl
  | some w =>
    constructor
    · simp only [duckStep, if_pos hc, hl]
      exact findStream_setVolume_self _ _ _
    · simp only [duckStep, if_pos hc, hl, Option.getD_some]
      exact hl

/-- The iteration for the target stream under `disable` when an entry is
remembered: the entry's volume is restored and the entry removed. -/
lemma duckStep_target_disable (dv : ℚ) (k : ℕ) (acc : SndState) (x : SinkInput)
    (hsink : x.sink = k) (hname : x.name ≠ APP_NAME) (v0 : ℚ)
    (hl : duckLookup acc.ducked x.index = some v0) :
    findStream (duckStep dv k false acc x).streams x.index
      = (findStream acc.streams x.index).map (fun a => { a with volume := v0 })
    ∧ duckLookup (duckStep dv k false acc x).ducked x.index = none := by
  have hc : x.sink = k ∧ x.name ≠ APP_NAME := ⟨hsink, hname⟩
  constructor
  · simp only [duckStep, if_pos hc, hl]
    exact findStream_setVolume_self _ _ _
  · simp only [duckStep, if_pos hc, hl]
    exact duckLookup_remove_self _ _

lemma setVolume_index_map (l : List SinkInput) (i : ℕ) (v : ℚ) :
    (setVolume l i v).map (fun x => x.index) = l.map (fun x => x.index) := by
  induction l with
  | nil => rfl
  | cons a rest ih =>
    by_cases ha : a.index = i <;> simp [setVolume, ha, ih]

lemma duckStep_index_map (dv : ℚ) (k : ℕ) (e : Bool) (acc : SndState) (x : SinkInput) :
    ((duckStep dv k e acc x).streams).map (fun y => y.index)
      = acc.streams.map (fun y => y.index) := by
  by_cases hc : x.sink = k ∧ x.name ≠ APP_NAME
  · cases e with
    | false =>
      cases hl : duckLookup acc.ducked x.index with
      | none => simp [duckStep, hc, hl]
      | some v => simp [duckStep, hc, hl, setVolume_index_map]
    | true =>
      cases hl : duckLookup acc.ducked x.index with
      | none => simp [duckStep, hc, hl, setVolume_index_map]
      | some v => simp [duckStep, hc, hl, setVolume_index_map]
  · simp [duckStep, hc]

lemma duckFold_index_map (dv : ℚ) (k : ℕ) (e : Bool) (xs : List SinkInput) :
    ∀ acc : SndState,
      ((xs.foldl (duckStep dv k e) acc).streams).map (fun y => y.index)
        = acc.streams.map (fun y => y.index) := by
  induction xs with
  | nil => intro acc; rfl
  | cons x rest ih =>
    intro acc
    simp only [List.foldl_cons]
    exact (ih _).trans (duckStep_index_map dv k e acc x)

/-- Ducking never changes which stream indices exist. -/
lemma duck_index_map (dv : ℚ) (k : ℕ) (e : Bool) (s : SndState) :
    ((duck dv k e s).streams).map (fun y => y.index)
      = s.streams.map (fun y => y.index) :=
  duckFold_index_map dv k e s.streams s

lemma findStream_split (l1 l2 : List SinkInput) (st : SinkInput)
    (hng : ∀ x ∈ l1, x.index ≠ st.index) :
    findStream (l1 ++ st :: l2) st.index = some st := by
  induction l1 with
  | nil => simp [findStream]
  | cons a rest ih =>
    have ha := hng a (List.mem_cons_self _ _)
    simp only [List.cons_append, findStream, if_neg ha]
    exact ih (fun x hx => hng x (List.mem_cons_of_mem _ hx))

lemma nodup_split_ne (l1 l2 : List SinkInput) (st : SinkInput)
    (h : ((l1 ++ st :: l2).map (fun x => x.index)).Nodup) :
    ∀ x ∈ l1 ++ l2, x.index ≠ st.index := by
  intro x hx heq
  rw [List.map_append, List.map_cons] at h
  rcases List.mem_append.mp hx with h1 | h2
  · have hd := (List.nodup_append.mp h).2.2
    exact hd (List.mem_map_of_mem _ h1) (heq ▸ List.mem_cons_self _ _)
  · have hcons := (List.nodup_append.mp h).2.1
    have hni : st.index ∉ l2.map (fun x => x.index) := (List.nodup_cons.mp hcons).1
    exact hni (heq ▸ List.mem_map_of_mem _ h2)

/-- Effect of one `duck(True)` call on a non-satellite stream of the sink
(indices assumed unique, as for pulseaudio sink inputs): the stream's volume
becomes the ducking volume, and the remembered entry is its previous volume
unless one was already remembered. -/
lemma duck_enable_spec (dv : ℚ) (k : ℕ) (s : SndState) (st : SinkInput)
    (hnd : (s.streams.map (fun x => x.index)).Nodup)
    (hmem : st ∈ s.streams) (hsink : st.sink = k) (hname : st.name ≠ APP_NAME) :
    findStream (duck dv k true s).streams st.index = some { st with volume := dv }
    ∧ duckLookup (duck dv k true s).ducked st.index
        = some ((duckLookup s.ducked st.index).getD st.volume) := by
  obtain ⟨l1, l2, hsplit⟩ := List.append_of_mem hmem
  have hng := nodup_split_ne l1 l2 st (by rw [← hsplit]; exact hnd)
  have hng1 : ∀ x ∈ l1, x.index ≠ st.index :=
    fun x hx => hng x (List.mem_append.mpr (Or.inl hx))
  have hng2 : ∀ x ∈ l2, x.index ≠ st.index :=
    fun x hx => hng x (List.mem_append.mpr (Or.inr hx))
  have hfold : duck dv k true s = l2.foldl (duckStep dv k true)
      (duckStep dv k true (l1.foldl (duckStep dv k true) s) st) := by
    rw [duck, hsplit, List.foldl_append, List.foldl_cons]
  have hA := duckFold_ne dv k true l1 s st.index hng1
  have hB := duckStep_target_enable dv k (l1.foldl (duckStep dv k true) s) st hsink hname
  have hC := duckFold_ne dv k true l2
    (duckStep dv k true (l1.foldl (duckStep dv k true) s) st) st.index hng2
  have hfind : findStream s.streams st.index = some st := by
    rw [hsplit]; exact findStream_split l1 l2 st hng1
  constructor
  · rw [hfold, hC.1, hB.1, hA.1, hfind]
    rfl
  · rw [hfold, hC.2, hB.2, hA.2]

/-- Effect of one `duck(False)` call on a non-satellite stream of the sink
with a remembered pre-duck volume: the remembered volume is restored and the
entry is forgotten. -/
lemma duck_disable_spec (dv : ℚ) (k : ℕ) (s : SndState) (st : SinkInput)
    (hnd : (s.streams.map (fun x => x.index)).Nodup)
    (hmem : st ∈ s.streams) (hsink : st.sink = k) (hname : st.name ≠ APP_NAME)
    (v0 : ℚ) (hl : duckLookup s.ducked st.index = some v0) :
    findStream (duck dv k false s).streams st.index = some { st with volume := v0 }
    ∧ duckLookup (duck dv k false s).ducked st.index = none := by
  obtain ⟨l1, l2, hsplit⟩ := List.append_of_mem hmem
  have hng := nodup_split_ne l1 l2 st (by rw [← hsplit]; exact hnd)
  have hng1 : ∀ x ∈ l1, x.index ≠ st.index :=
    fun x hx => hng x (List.mem_append.mpr (Or.inl hx))
  have hng2 : ∀ x ∈ l2, x.index ≠ st.index :=
    fun x hx => hng x (List.mem_append.mpr (Or.inr hx))
  have hfold : duck dv k false s = l2.foldl (duckStep dv k false)
      (duckStep dv k false (l1.foldl (duckStep dv k false) s) st) := by
    rw [duck, hsplit, List.foldl_append, List.foldl_cons]
  have hA := duckFold_ne dv k false l1 s st.index hng1
  have hB := duckStep_target_disable dv k (l1.foldl (duckStep dv k false) s) st hsink hname
    v0 (hA.2.trans hl)
  have hC := duckFold_ne dv k false l2
    (duckStep dv k false (l1.foldl (duckStep dv k false) s) st) st.index hng2
  have hfind : findStream s.streams st.index = some st := by
    rw [hsplit]; exact findStream_split l1 l2 st hng1
  constructor
  · rw [hfold, hC.1, hB.1, hA.1, hfind]
    rfl
  · rw [hfold, hC.2, hB.2]

/-- Claim C7: for every non-satellite stream of the output sink (with no
volume yet remembered for it), `Duck(true)` sets the stream to the ducking
volume and remembers its pre-duck volume; a second consecutive `Duck(true)`
does not overwrite the remembered volume with the ducked one; and
`Duck(false)` then restores exactly the original pre-duck volume and forgets
it — so `Duck(true); Duck(true); Duck(false)` restores the original volume
exactly once. -/
theorem C7_duck_idempotent_exact_restore :
    ∀ (dv : ℚ) (k : ℕ) (s : SndState) (st : SinkInput),
      (s.streams.map (fun x => x.index)).Nodup →
      st ∈ s.streams → st.sink = k → st.name ≠ APP_NAME →
      duckLookup s.ducked st.index = none →
      (findStream (duck dv k true s).streams st.index = some { st with volume := dv }
       ∧ duckLookup (duck dv k true s).ducked st.index = some st.volume
       ∧ findStream (duck dv k true (duck dv k true s)).streams st.index
           = some { st with volume := dv }
       ∧ duckLookup (duck dv k true (duck dv k true s)).ducked st.index = some st.volume
       ∧ findStream
           (duck dv k false (duck dv k true (duck dv k true s))).streams st.index = some st
       ∧ duckLookup
           (duck dv k false (duck dv k true (duck dv k true s))).ducked st.index = none) := by
  intro dv k s st hnd hmem hsink hname hnone
  have h1 := duck_enable_spec dv k s st hnd hmem hsink hname
  have h1find := h1.1
  have h1look : duckLookup (duck dv k true s).ducked st.index = some st.volume := by
    rw [h1.2, hnone, Option.getD_none]
  have hnd1 : (((duck dv k true s).streams).map (fun x => x.index)).Nodup := by
    rw [duck_index_map]; exact hnd
  have hmem1 : ({ st with volume := dv }) ∈ (duck dv k true s).streams :=
    findStream_mem h1find
  have h2 := duck_enable_spec dv k (duck dv k true s) { st with volume := dv }
    hnd1 hmem1 hsink hname
  have h2find : findStream (duck dv k true (duck dv k true s)).streams st.index
      = some { st with volume := dv } := h2.1
  have h2look : duckLookup (duck dv k true (duck dv k true s)).ducked st.index
      = some st.volume := by
    have h := h2.2
    rw [show ({ st with volume := dv } : SinkInput).index = st.index from rfl,
      h1look] at h
    exact h
  have hnd2 : (((duck dv k true (duck dv k true s)).streams).map (fun x => x.index)).Nodup := by
    rw [duck_index_map]; exact hnd1
  have hmem2 : ({ st with volume := dv }) ∈ (duck dv k true (duck dv k true s)).streams :=
    findStream_mem h2find
  have h3 := duck_disable_spec dv k (duck dv k true (duck dv k true s))
    { st with volume := dv } hnd2 hmem2 hsink hname st.volume h2look
  have h3find : findStream
      (duck dv k false (duck dv k true (duck dv k true s))).streams st.index = some st := by
    have h := h3.1
    rw [show ({ ({ st with volume := dv } : SinkInput) with volume := st.volume } : SinkInput)
        = st from rfl] at h
    exact h
  exact ⟨h1find, h1look, h2find, h2look, h3find, h3.2⟩

/-- Witness for C7 at a concrete input: one music stream at volume 3 on sink
0, ducking volume 1. -/
theorem C7_duck_idempotent_exact_restore_witness :
    duckLookup (duck 1 0 true (SndState.mk [SinkInput.mk 5 "music" 0 3] [])).ducked 5
      = some 3
    ∧ findStream (duck 1 0 false (duck 1 0 true (duck 1 0 true
        (SndState.mk [SinkInput.mk 5 "music" 0 3] [])))).streams 5
      = some (SinkInput.mk 5 "music" 0 3)
    ∧ duckLookup (duck 1 0 false (duck 1 0 true (duck 1 0 true
        (SndState.mk [SinkInput.mk 5 "music" 0 3] [])))).ducked 5
      = none := by
  have h := C7_duck_idempotent_exact_restore 1 0
    (SndState.mk [SinkInput.mk 5 "music" 0 3] []) (SinkInput.mk 5 "music" 0 3)
    (by decide) (by decide) rfl (by decide) rfl
  exact ⟨h.2.1, h.2.2.2.2.1, h.2.2.2.2.2⟩

end HASat
